import Mathlib

set_option maxRecDepth 40000

/-!
Verification of the watermark protocol in `gost_video_signer.py`
(class `GOSTVideoSteganographer`).

Byte buffers are modelled as `List Nat` (each element a byte value).
The index-based `while` loops of the source are modelled as fuel-based
structural recursions; every top-level wrapper passes `data.length + 1`
fuel, which is sufficient because each loop iteration strictly increases
the scan index and the loops stop once the index passes the buffer end.
Python's negative-length guards (`i < len(data) - k` with short data)
coincide with truncated `Nat` subtraction because the index is never
negative.  File I/O, logging and the external `gostcrypto` signer/hasher
are outside the embedded core; the self-contained verification routine
takes the external verifier as a function parameter.
-/

/-- The 17-byte tag `b'GOST_SIGNATURE_V1'` (line 161 of the source). -/
def uuid : List Nat :=
  [71, 79, 83, 84, 95, 83, 73, 71, 78, 65, 84, 85, 82, 69, 95, 86, 49]

/-- The 4-byte start-code test `data[i..i+3] == 00 00 00 01` used by every
scan loop in the source (e.g. lines 204-205). -/
def isStartCode (data : List Nat) (i : Nat) : Bool :=
  data.getD i 0 == 0 && data.getD (i+1) 0 == 0 &&
  data.getD (i+2) 0 == 0 && data.getD (i+3) 0 == 1

/-- Loop body of the chunked-length encoder (lines 180-183):
`while v >= 255: emit 0xFF; v -= 255` then emit `v`. -/
def encodeChunkedAux : Nat → Nat → List Nat
  | 0, v => [v]
  | fuel+1, v => if 255 ≤ v then 255 :: encodeChunkedAux fuel (v - 255) else [v]

/-- Chunked-length encoding of a non-negative integer (lines 180-183).
`v` iterations of fuel suffice since each step subtracts 255. -/
def encodeChunked (v : Nat) : List Nat :=
  encodeChunkedAux v v

/-- Loop of lines 413-417 / 420-424: count the bytes the chunked encoding
of `v` occupies (`1` plus one per subtraction of 255). -/
def chunkByteCountAux : Nat → Nat → Nat
  | 0, _ => 1
  | fuel+1, v => if 255 ≤ v then 1 + chunkByteCountAux fuel (v - 255) else 1

/-- Byte count of the chunked encoding of `v`, as recomputed by
`_parse_sei_and_get_length` (lines 412-424). -/
def chunkByteCount (v : Nat) : Nat :=
  chunkByteCountAux v v

/-- `_create_sei_payload` (lines 158-191): start code, NAL header `0x06`,
payload type `0x05`, chunked payload size, payload (tag ++ signature),
trailing byte `0x80`. -/
def createSeiPayload (signature : List Nat) : List Nat :=
  let payloadData := uuid ++ signature
  [0, 0, 0, 1] ++ [6] ++ [5] ++ encodeChunked payloadData.length ++
    payloadData ++ [128]

/-- Loop of `_find_next_start_code` (lines 242-250):
`while i < len(data) - 4`, return `i` at the first start code. -/
def fnsAux : Nat → List Nat → Nat → Option Nat
  | 0, _, _ => none
  | fuel+1, data, i =>
    if i < data.length - 4 then
      if isStartCode data i then some i else fnsAux fuel data (i+1)
    else none

/-- `_find_next_start_code(data, start_pos)` (lines 242-250); `none`
models the `-1` "not found" return. -/
def findNextStartCode (data : List Nat) (startPos : Nat) : Option Nat :=
  fnsAux (data.length + 1) data startPos

/-- Loop of `_find_position_after_sps_pps` (lines 252-276), carrying the
scan index and `last_sps_pps_pos`. -/
def findPosAux : Nat → List Nat → Nat → Nat → Nat
  | 0, _, _, last => last + 100
  | fuel+1, data, i, last =>
    if i < data.length - 8 then
      if isStartCode data i then
        if data.getD (i+4) 0 % 32 = 7 ∨ data.getD (i+4) 0 % 32 = 8 then
          match findNextStartCode data (i+4) with
          | some ns =>
            if data.getD (ns+4) 0 % 32 ≠ 7 ∧ data.getD (ns+4) 0 % 32 ≠ 8 then
              ns
            else findPosAux fuel data (i+4) i
          | none => findPosAux fuel data (i+4) i
        else findPosAux fuel data (i+4) last
      else findPosAux fuel data (i+1) last
    else last + 100

/-- `_find_position_after_sps_pps` (lines 252-276). -/
def findPositionAfterSpsPps (data : List Nat) : Nat :=
  findPosAux (data.length + 1) data 0 0

/-- Loop of `_find_best_insertion_point` (lines 193-240), carrying the
scan index and the `sps_found` / `pps_found` flags.  Branches, in source
order: return `i` on a type-1 unit once both flags are set; on a type-6
unit return the next start code when one exists; otherwise update the
flags and advance to the next start code, falling to the post-loop code
(`SPS/PPS` fallback or `0`) when none remains. -/
def findBestAux : Nat → List Nat → Nat → Bool → Bool → Nat
  | 0, data, _, sps, pps =>
    if sps && pps then findPositionAfterSpsPps data else 0
  | fuel+1, data, i, sps, pps =>
    if i < data.length - 8 then
      if isStartCode data i then
        if data.getD (i+4) 0 % 32 = 1 ∧ sps = true ∧ pps = true then i
        else if data.getD (i+4) 0 % 32 = 6 ∧
            (findNextStartCode data (i+4)).isSome = true then
          (findNextStartCode data (i+4)).getD 0
        else
          match findNextStartCode data (i+4) with
          | none =>
            if (sps || data.getD (i+4) 0 % 32 == 7) &&
               (pps || data.getD (i+4) 0 % 32 == 8) then
              findPositionAfterSpsPps data
            else 0
          | some ns =>
            findBestAux fuel data ns
              (sps || data.getD (i+4) 0 % 32 == 7)
              (pps || data.getD (i+4) 0 % 32 == 8)
      else findBestAux fuel data (i+1) sps pps
    else if sps && pps then findPositionAfterSpsPps data else 0

/-- `_find_best_insertion_point` (lines 193-240).  The function never
returns `-1`: every exit path yields a non-negative offset, so the
`insertion_point == -1` fallback at line 146 is dead code. -/
def findBestInsertionPoint (data : List Nat) : Nat :=
  findBestAux (data.length + 1) data 0 false false

/-- `_embed_in_sei_messages` (lines 134-156): splice the encoded unit at
the selected insertion point. -/
def embedInSeiMessages (videoData signature : List Nat) : List Nat :=
  let seiPayload := createSeiPayload signature
  let insertionPoint := findBestInsertionPoint videoData
  videoData.take insertionPoint ++ seiPayload ++ videoData.drop insertionPoint

/-- Chunked-integer reader of `_parse_sei_and_get_length`
(lines 375-383 and 386-394): add 255 per `0xFF` byte, then add the first
non-`0xFF` byte; `none` when the buffer ends first.  Returns the decoded
value together with the position just past the terminal byte. -/
def readChunkedAux : Nat → List Nat → Nat → Nat → Option (Nat × Nat)
  | 0, _, _, _ => none
  | fuel+1, data, pos, acc =>
    if pos < data.length then
      if data.getD pos 0 = 255 then readChunkedAux fuel data (pos+1) (acc+255)
      else some (acc + data.getD pos 0, pos + 1)
    else none

/-- Position-based chunked-integer reader (wrapper with ample fuel). -/
def readChunked (data : List Nat) (pos : Nat) : Option (Nat × Nat) :=
  readChunkedAux (data.length + 1) data pos 0

/-- Suffix-based restatement of the chunked-integer reader, used to relate
`readChunked` at an offset to the bytes from that offset on.  Returns the
decoded value and the number of bytes consumed. -/
def readChunkedCore : List Nat → Nat → Option (Nat × Nat)
  | [], _ => none
  | b :: tl, acc =>
    if b = 255 then (readChunkedCore tl (acc + 255)).map (fun p => (p.1, p.2 + 1))
    else some (acc + b, 1)

/-- `_parse_sei_and_get_length` (lines 364-432).  Skips the start code
and the (unchecked) NAL header byte, reads the chunked payload type and
size, and accepts only when the type is 5, the payload fits the buffer,
the payload starts with the 17-byte tag and the remaining signature is
exactly 64 bytes; on success returns the signature and the full unit
length `4 + 1 + type_bytes + size_bytes + payload_size + 1`.  Note the
trailing `0x80` byte is counted but never read or validated. -/
def parseSeiAndGetLength (data : List Nat) (startPos : Nat) :
    Option (List Nat × Nat) :=
  if startPos + 4 < data.length then
    match readChunked data (startPos + 5) with
    | none => none
    | some (payloadType, pos1) =>
      match readChunked data pos1 with
      | none => none
      | some (payloadSize, pos2) =>
        if payloadType = 5 ∧ pos2 + payloadSize ≤ data.length then
          let payloadData := (data.drop pos2).take payloadSize
          if payloadData.take 17 = uuid then
            let signature := payloadData.drop 17
            if signature.length = 64 then
              some (signature,
                4 + 1 + chunkByteCount payloadType +
                  chunkByteCount payloadSize + payloadSize + 1)
            else none
          else none
        else none
  else none

/-- Loop of `_extract_signature_and_remove_watermark` (lines 315-362):
scan for start codes; on a type-6 unit try the parser and, on success
(signature non-empty and positive length, line 336), delete the span
`[i, i + sei_length)`; otherwise advance to the next start code. -/
def extractAux : Nat → List Nat → Nat → Option (List Nat × List Nat)
  | 0, _, _ => none
  | fuel+1, data, i =>
    if i < data.length - 20 then
      if isStartCode data i then
        if data.getD (i+4) 0 % 32 = 6 then
          match parseSeiAndGetLength data i with
          | some (signature, seiLength) =>
            if signature.length ≠ 0 ∧ 0 < seiLength then
              some (signature, data.take i ++ data.drop (i + seiLength))
            else
              match findNextStartCode data (i+4) with
              | none => none
              | some ns => extractAux fuel data ns
          | none =>
            match findNextStartCode data (i+4) with
            | none => none
            | some ns => extractAux fuel data ns
        else
          match findNextStartCode data (i+4) with
          | none => none
          | some ns => extractAux fuel data ns
      else extractAux fuel data (i+1)
    else none

/-- `_extract_signature_and_remove_watermark` (lines 315-362); `none`
models the `(None, None)` "not found" return. -/
def extractSignatureAndRemoveWatermark (data : List Nat) :
    Option (List Nat × List Nat) :=
  extractAux (data.length + 1) data 0

/-- The success condition of the extraction scan at offset `q`: a start
code whose unit has type 6 and whose payload parses as a valid watermark
(lines 323-336). -/
def seiTrigger (data : List Nat) (q : Nat) : Bool :=
  isStartCode data q && data.getD (q+4) 0 % 32 == 6 &&
  (parseSeiAndGetLength data q).isSome

/-- `extract_signature_and_restore_video` (lines 278-313) minus the
file I/O: it forwards the extraction result only through the truthiness
check `if signature and restored_data:` (line 291).  Python's empty
bytes are falsy, so the wrapper returns `(None, None)` — modelled as
`none` — not only when extraction fails but also when the extracted
signature or the restored buffer is empty. -/
def extractSignatureAndRestoreVideo (data : List Nat) :
    Option (List Nat × List Nat) :=
  match extractSignatureAndRemoveWatermark data with
  | none => none
  | some (signature, restored) =>
    if signature.length ≠ 0 ∧ restored.length ≠ 0 then
      some (signature, restored)
    else none

/-- `verify_watermarked_video_self_contained` (lines 434-470), with the
external signature check (`verify_video` composed with hashing, lines
472-487) abstracted as the function argument `verify`.  It calls the
restore wrapper above; the guard
`if not signature or not restored_video_path: return False` (line 441)
fires exactly when that wrapper returned `(None, None)`.  The first
component is the returned boolean; the second records what the function
merely logs: the "expected original size" computed by the fixed offset
`len(watermarked) - len(signature) - 16 - 11` (line 450), `none` when
the function returns `False` early. -/
def verifyWatermarkedVideoSelfContained
    (verify : List Nat → List Nat → Bool) (data : List Nat) :
    Bool × Option Int :=
  match extractSignatureAndRestoreVideo data with
  | none => (false, none)
  | some (signature, restored) =>
    (verify restored signature,
     some ((data.length : Int) - (signature.length : Int) - 16 - 11))

/-- Concrete 64-byte signatures and buffers used by counterexamples and
witnesses. -/
def sigA : List Nat := List.replicate 64 170

def sigB : List Nat := List.replicate 64 187

/-- A buffer that already carries a valid watermark unit followed by a
further NAL unit (type 2): used to refute the unconditional round-trip. -/
def bufPrewatermarked : List Nat := createSeiPayload sigA ++ [0, 0, 0, 1, 2]

/-- SPS then PPS with no later start code: drives the selector into the
`last_sps_pps_pos + 100` fallback. -/
def bufSpsPpsOnly : List Nat :=
  [0, 0, 0, 1, 7] ++ [0, 0, 0, 1, 8] ++ List.replicate 8 170

/-- SPS, PPS, an existing SEI (type 6), a type-2 unit, then the first
qualifying coded slice (type 1) at offset 20. -/
def bufSeiBeforeSlice : List Nat :=
  [0, 0, 0, 1, 7] ++ [0, 0, 0, 1, 8] ++ [0, 0, 0, 1, 6] ++
  [0, 0, 0, 1, 2] ++ [0, 0, 0, 1, 1] ++ List.replicate 10 170

/-- SPS, PPS, then a qualifying coded slice at offset 10. -/
def bufIdealSlice : List Nat :=
  [0, 0, 0, 1, 7] ++ [0, 0, 0, 1, 8] ++ [0, 0, 0, 1, 1] ++
  List.replicate 9 170

/-- SPS, PPS, then a non-parameter-set, non-slice unit (type 2) at
offset 10. -/
def bufAfterParams : List Nat :=
  [0, 0, 0, 1, 7] ++ [0, 0, 0, 1, 8] ++ [0, 0, 0, 1, 2] ++
  List.replicate 9 170

/-- A type-6 unit whose payload is not ours (wrong tag): parsing must
reject it and scanning must continue. -/
def foreignSeiUnit : List Nat := [0, 0, 0, 1, 6, 5, 3, 1, 2, 3, 128]

def bufForeignThenValid : List Nat := foreignSeiUnit ++ createSeiPayload sigA

/-- A 32-byte string: not a valid signature length. -/
def sig32 : List Nat := List.replicate 32 9

/-- A plain buffer with a single non-metadata unit. -/
def bufPlain : List Nat := [0, 0, 0, 1, 2] ++ List.replicate 9 170

/-! ## Basic indexing lemmas -/

theorem getD_append_len (l x : List Nat) (k d : Nat) :
    (l ++ x).getD (l.length + k) d = x.getD k d := by
  induction l with
  | nil => simp
  | cons a tl ih =>
    simp only [List.cons_append, List.length_cons]
    rw [show tl.length + 1 + k = (tl.length + k) + 1 by omega]
    simpa using ih

theorem getD_append_self (l x : List Nat) (d : Nat) :
    (l ++ x).getD l.length d = x.getD 0 d := by
  simpa using getD_append_len l x 0 d

/-! ## Start-code scanner lemmas -/

theorem fnsAux_some_bounds : ∀ fuel (data : List Nat) i j,
    fnsAux fuel data i = some j →
    i ≤ j ∧ j + 4 < data.length ∧ isStartCode data j = true := by
  intro fuel
  induction fuel with
  | zero => intro data i j h; simp [fnsAux] at h
  | succ f ih =>
    intro data i j h
    simp only [fnsAux] at h
    split at h
    · split at h
      · cases h
        refine ⟨Nat.le_refl _, by omega, by assumption⟩
      · obtain ⟨h1, h2, h3⟩ := ih data (i+1) j h
        exact ⟨by omega, h2, h3⟩
    · cases h

theorem findNextStartCode_some_bounds {data : List Nat} {s j : Nat}
    (h : findNextStartCode data s = some j) :
    s ≤ j ∧ j + 4 < data.length ∧ isStartCode data j = true :=
  fnsAux_some_bounds _ data s j h

theorem fnsAux_reach : ∀ fuel (data : List Nat) i q,
    data.length ≤ fuel + i → isStartCode data q = true → i ≤ q →
    q + 4 < data.length →
    ∃ j, fnsAux fuel data i = some j ∧ j ≤ q := by
  intro fuel
  induction fuel with
  | zero => intro data i q hf hq hiq hql; omega
  | succ f ih =>
    intro data i q hf hq hiq hql
    have hguard : i < data.length - 4 := by omega
    by_cases hsc : isStartCode data i = true
    · exact ⟨i, by simp [fnsAux, if_pos hguard, hsc], hiq⟩
    · have hne : i ≠ q := fun e => hsc (e ▸ hq)
      obtain ⟨j, hj, hjq⟩ := ih data (i+1) q (by omega) hq (by omega) hql
      refine ⟨j, ?_, hjq⟩
      simp only [fnsAux, if_pos hguard]
      rw [if_neg hsc]
      exact hj

theorem findNextStartCode_reach {data : List Nat} {s q : Nat}
    (hq : isStartCode data q = true) (hsq : s ≤ q)
    (hql : q + 4 < data.length) :
    ∃ j, findNextStartCode data s = some j ∧ j ≤ q :=
  fnsAux_reach _ data s q (by omega) hq hsq hql

theorem fnsAux_min : ∀ fuel (data : List Nat) i j,
    fnsAux fuel data i = some j →
    ∀ m, i ≤ m → m < j → isStartCode data m = false := by
  intro fuel
  induction fuel with
  | zero => intro data i j h; simp [fnsAux] at h
  | succ f ih =>
    intro data i j h m him hmj
    simp only [fnsAux] at h
    split at h
    · by_cases hsc : isStartCode data i = true
      · rw [if_pos hsc] at h; cases h; omega
      · rw [if_neg hsc] at h
        rcases Nat.eq_or_lt_of_le him with rfl | hlt
        · exact Bool.not_eq_true _ ▸ (Bool.eq_false_iff.mpr hsc)
        · exact ih data (i+1) j h m hlt hmj
    · cases h

theorem findNextStartCode_min {data : List Nat} {s j : Nat}
    (h : findNextStartCode data s = some j) :
    ∀ m, s ≤ m → m < j → isStartCode data m = false :=
  fnsAux_min _ data s j h

theorem startCode_no_overlap {data : List Nat} {i q : Nat}
    (hi : isStartCode data i = true) (hq : isStartCode data q = true)
    (hlt : i < q) : i + 4 ≤ q := by
  by_contra hcon
  push_neg at hcon
  simp only [isStartCode, Bool.and_eq_true, beq_iff_eq] at hi hq
  obtain ⟨⟨⟨_, _⟩, _⟩, hi3⟩ := hi
  have h3 : q = i + 1 ∨ q = i + 2 ∨ q = i + 3 := by omega
  rcases h3 with h | h | h <;> subst h
  · have hx : data.getD (i+3) 0 = 0 := hq.1.2
    omega
  · have hx : data.getD (i+3) 0 = 0 := hq.1.1.2
    omega
  · have hx : data.getD (i+3) 0 = 0 := hq.1.1.1
    omega

theorem next_sc_le {data : List Nat} {i a k : Nat}
    (hi : isStartCode data i = true) (ha : isStartCode data a = true)
    (hlt : i < a) (hk : findNextStartCode data (i+4) = some k) : k ≤ a := by
  by_contra hcon
  push_neg at hcon
  have h4 : i + 4 ≤ a := startCode_no_overlap hi ha hlt
  have hfalse := findNextStartCode_min hk a h4 hcon
  rw [ha] at hfalse
  cases hfalse

/-! ## Chunked codec closed forms -/

theorem encodeChunkedAux_closed : ∀ fuel v, v < 255 * fuel + 255 →
    encodeChunkedAux fuel v = List.replicate (v / 255) 255 ++ [v % 255] := by
  intro fuel
  induction fuel with
  | zero =>
    intro v hv
    have h1 : v / 255 = 0 := Nat.div_eq_of_lt (by omega)
    have h2 : v % 255 = v := Nat.mod_eq_of_lt (by omega)
    simp [encodeChunkedAux, h1, h2]
  | succ f ih =>
    intro v hv
    simp only [encodeChunkedAux]
    by_cases h : 255 ≤ v
    · rw [if_pos h, ih (v - 255) (by omega)]
      have hq : (v - 255) / 255 = v / 255 - 1 := by omega
      have hr : (v - 255) % 255 = v % 255 := by omega
      have h1 : 1 ≤ v / 255 := by omega
      rw [hq, hr, show v / 255 = (v / 255 - 1) + 1 by omega,
        List.replicate_succ]
      simp
    · rw [if_neg h]
      have h1 : v / 255 = 0 := Nat.div_eq_of_lt (by omega)
      have h2 : v % 255 = v := Nat.mod_eq_of_lt (by omega)
      simp [h1, h2]

theorem encodeChunked_closed (v : Nat) :
    encodeChunked v = List.replicate (v / 255) 255 ++ [v % 255] :=
  encodeChunkedAux_closed v v (by omega)

theorem encodeChunked_length (v : Nat) :
    (encodeChunked v).length = v / 255 + 1 := by
  rw [encodeChunked_closed]; simp

theorem chunkByteCountAux_closed : ∀ fuel v, v < 255 * fuel + 255 →
    chunkByteCountAux fuel v = v / 255 + 1 := by
  intro fuel
  induction fuel with
  | zero =>
    intro v hv
    have h1 : v / 255 = 0 := Nat.div_eq_of_lt (by omega)
    simp [chunkByteCountAux, h1]
  | succ f ih =>
    intro v hv
    simp only [chunkByteCountAux]
    by_cases h : 255 ≤ v
    · rw [if_pos h, ih (v - 255) (by omega)]
      omega
    · rw [if_neg h]
      have h1 : v / 255 = 0 := Nat.div_eq_of_lt (by omega)
      omega

theorem chunkByteCount_closed (v : Nat) : chunkByteCount v = v / 255 + 1 :=
  chunkByteCountAux_closed v v (by omega)

/-! ## Chunked reader localization -/

theorem readChunkedAux_loc : ∀ (x pre : List Nat) (acc fuel : Nat),
    (pre ++ x).length ≤ fuel + pre.length →
    readChunkedAux fuel (pre ++ x) pre.length acc =
      (readChunkedCore x acc).map (fun p => (p.1, pre.length + p.2)) := by
  intro x
  induction x with
  | nil =>
    intro pre acc fuel hf
    cases fuel with
    | zero => simp [readChunkedAux, readChunkedCore]
    | succ f => simp [readChunkedAux, readChunkedCore]
  | cons b tl ih =>
    intro pre acc fuel hf
    simp only [List.length_append, List.length_cons] at hf
    cases fuel with
    | zero => omega
    | succ f =>
      simp only [readChunkedAux]
      have hguard : pre.length < (pre ++ b :: tl).length := by simp
      rw [if_pos hguard]
      have hb : (pre ++ b :: tl).getD pre.length 0 = b := by
        rw [getD_append_self]; rfl
      rw [hb]
      by_cases h255 : b = 255
      · subst h255
        rw [if_pos rfl]
        have hassoc : pre ++ 255 :: tl = (pre ++ [255]) ++ tl := by simp
        have hx : ((pre ++ [255]) ++ tl).length ≤ f + (pre ++ [255]).length := by
          simp only [List.length_append, List.length_cons, List.length_nil]
          omega
        rw [show pre.length + 1 = (pre ++ [255]).length by simp, hassoc,
          ih (pre ++ [255]) (acc + 255) f hx]
        have hcore : readChunkedCore (255 :: tl) acc =
            (readChunkedCore tl (acc + 255)).map (fun p => (p.1, p.2 + 1)) := by
          simp [readChunkedCore]
        rw [hcore]
        cases readChunkedCore tl (acc + 255) with
        | none => simp
        | some p =>
          simp only [Option.map_some', Option.some.injEq, Prod.mk.injEq,
            List.length_append, List.length_cons, List.length_nil,
            true_and]
          omega
      · rw [if_neg h255]
        simp only [readChunkedCore]
        rw [if_neg h255]
        simp

theorem readChunked_loc (pre x : List Nat) :
    readChunked (pre ++ x) pre.length =
      (readChunkedCore x 0).map (fun p => (p.1, pre.length + p.2)) :=
  readChunkedAux_loc x pre 0 _ (by omega)

theorem readChunkedAux_some : ∀ fuel (data : List Nat) pos acc v pos',
    readChunkedAux fuel data pos acc = some (v, pos') →
    pos + 1 ≤ pos' ∧ pos' ≤ data.length := by
  intro fuel
  induction fuel with
  | zero => intro data pos acc v pos' h; simp [readChunkedAux] at h
  | succ f ih =>
    intro data pos acc v pos' h
    simp only [readChunkedAux] at h
    split at h
    · split at h
      · obtain ⟨h1, h2⟩ := ih data (pos+1) (acc+255) v pos' h
        omega
      · cases h
        refine ⟨Nat.le_refl _, by omega⟩
    · cases h

theorem readChunked_some {data : List Nat} {pos v pos' : Nat}
    (h : readChunked data pos = some (v, pos')) :
    pos + 1 ≤ pos' ∧ pos' ≤ data.length :=
  readChunkedAux_some _ data pos 0 v pos' h

/-! ## Structure of the encoded unit -/

theorem uuid_length : uuid.length = 17 := rfl

theorem createSeiPayload_eq {S : List Nat} (hS : S.length = 64) :
    createSeiPayload S = [0, 0, 0, 1, 6, 5, 81] ++ uuid ++ S ++ [128] := by
  have h81 : (uuid ++ S).length = 81 := by simp [uuid, hS]
  have henc : encodeChunked 81 = [81] := rfl
  simp only [createSeiPayload, h81, henc]
  simp

theorem createSeiPayload_length {S : List Nat} (hS : S.length = 64) :
    (createSeiPayload S).length = 89 := by
  rw [createSeiPayload_eq hS]
  simp [uuid, hS]

theorem createSeiPayload_length_general (S : List Nat) :
    (createSeiPayload S).length = 25 + S.length + (17 + S.length) / 255 := by
  simp only [createSeiPayload, List.length_append, encodeChunked_length,
    List.length_cons, List.length_nil, uuid_length]
  omega

/-! ## The parser on an encoder-shaped unit -/

theorem readChunked_at_byte (data pre rest : List Nat) (b pos : Nat)
    (hd : data = pre ++ b :: rest) (hpos : pos = pre.length) (hb : b ≠ 255) :
    readChunked data pos = some (b, pos + 1) := by
  subst hd hpos
  rw [readChunked_loc]
  simp [readChunkedCore, hb]

theorem parse_at_unit (pre S tail : List Nat) (hS : S.length = 64) :
    parseSeiAndGetLength (pre ++ [0, 0, 0, 1, 6, 5, 81] ++ uuid ++ S ++ tail)
      pre.length = some (S, 89) := by
  have h81 : (uuid ++ S).length = 81 := by simp [uuid, hS]
  have hlen : (pre ++ [0, 0, 0, 1, 6, 5, 81] ++ uuid ++ S ++ tail).length
      = pre.length + 88 + tail.length := by
    simp [uuid, hS]
    omega
  have h1 : readChunked (pre ++ [0, 0, 0, 1, 6, 5, 81] ++ uuid ++ S ++ tail)
      (pre.length + 5) = some (5, pre.length + 5 + 1) :=
    readChunked_at_byte _ (pre ++ [0, 0, 0, 1, 6])
      (81 :: (uuid ++ S ++ tail)) 5 _ (by simp) (by simp) (by norm_num)
  have h2 : readChunked (pre ++ [0, 0, 0, 1, 6, 5, 81] ++ uuid ++ S ++ tail)
      (pre.length + 6) = some (81, pre.length + 6 + 1) :=
    readChunked_at_byte _ (pre ++ [0, 0, 0, 1, 6, 5])
      (uuid ++ S ++ tail) 81 _ (by simp) (by simp) (by norm_num)
  have hpayload : ((pre ++ [0, 0, 0, 1, 6, 5, 81] ++ uuid ++ S ++ tail).drop
      (pre.length + 7)).take 81 = uuid ++ S := by
    have e3 : pre ++ [0, 0, 0, 1, 6, 5, 81] ++ uuid ++ S ++ tail
        = (pre ++ [0, 0, 0, 1, 6, 5, 81]) ++ ((uuid ++ S) ++ tail) := by simp
    rw [e3, List.drop_left' (by simp), List.take_left' h81]
  simp only [parseSeiAndGetLength]
  rw [if_pos (by omega)]
  rw [show pre.length + 5 = pre.length + 4 + 1 by omega] at h1
  rw [h1]
  simp only []
  rw [show pre.length + 4 + 1 + 1 = pre.length + 6 by omega] at h1 ⊢
  rw [h2]
  simp only []
  rw [if_pos ⟨trivial, by omega⟩]
  simp only [show pre.length + 6 + 1 = pre.length + 7 by omega, hpayload,
    List.take_left' uuid_length, List.drop_left' uuid_length]
  rw [if_pos trivial, if_pos hS]
  rfl

/-! ## Inversion of a successful parse -/

theorem parse_some_inv {data : List Nat} {q : Nat} {s : List Nat} {l : Nat}
    (h : parseSeiAndGetLength data q = some (s, l)) :
    s.length = 64 ∧ 89 ≤ l ∧ q + 88 ≤ data.length := by
  simp only [parseSeiAndGetLength] at h
  split at h
  case isFalse => cases h
  case isTrue hq4 =>
    split at h
    case h_1 => cases h
    case h_2 payloadType pos1 hr1 =>
      split at h
      case h_1 => cases h
      case h_2 payloadSize pos2 hr2 =>
        split at h
        case isFalse => cases h
        case isTrue hcond =>
          split at h
          case isFalse => cases h
          case isTrue htake =>
            split at h
            case isFalse => cases h
            case isTrue hlen64 =>
              injection h with h'
              injection h' with hsig hlenval
              obtain ⟨hr1a, hr1b⟩ := readChunked_some hr1
              obtain ⟨hr2a, hr2b⟩ := readChunked_some hr2
              have hps : payloadSize = 81 := by
                have h2 := hlen64
                simp only [List.length_drop, List.length_take,
                  List.length_drop] at h2
                omega
              refine ⟨by rw [← hsig]; exact hlen64, ?_, ?_⟩
              · rw [← hlenval, chunkByteCount_closed, chunkByteCount_closed]
                omega
              · omega

/-! ## Reaching the first valid watermark unit during extraction -/

theorem extract_reach {data : List Nat} {q : Nat} {sig : List Nat} {l : Nat}
    (hq : isStartCode data q = true) (ht : data.getD (q+4) 0 % 32 = 6)
    (hp : parseSeiAndGetLength data q = some (sig, l)) :
    ∀ fuel i, data.length + 1 ≤ fuel + i → i ≤ q →
    (∀ j, i ≤ j → j < q → seiTrigger data j = false) →
    extractAux fuel data i = some (sig, data.take q ++ data.drop (q + l)) := by
  obtain ⟨hs64, hl89, hq88⟩ := parse_some_inv hp
  intro fuel
  induction fuel with
  | zero => intro i hf hiq hno; omega
  | succ f ih =>
    intro i hf hiq hno
    have hguard : i < data.length - 20 := by omega
    simp only [extractAux]
    rw [if_pos hguard]
    rcases Nat.eq_or_lt_of_le hiq with rfl | hlt
    · rw [if_pos hq, if_pos ht, hp]
      simp only []
      rw [if_pos ⟨by omega, by omega⟩]
    · have hq4 : q + 4 < data.length := by omega
      by_cases hsc : isStartCode data i = true
      · rw [if_pos hsc]
        have htrig : seiTrigger data i = false := hno i (Nat.le_refl i) hlt
        have hik : i + 4 ≤ q := startCode_no_overlap hsc hq hlt
        obtain ⟨k, hk, hkq⟩ := findNextStartCode_reach hq hik hq4
        have hki : i + 1 ≤ k := by
          have := (findNextStartCode_some_bounds hk).1
          omega
        have hrec : extractAux f data k
            = some (sig, data.take q ++ data.drop (q + l)) :=
          ih k (by omega) hkq (fun j hj1 hj2 => hno j (by omega) hj2)
        by_cases h6 : data.getD (i+4) 0 % 32 = 6
        · rw [if_pos h6]
          cases hpi : parseSeiAndGetLength data i with
          | some p =>
            exfalso
            have htr : seiTrigger data i = true := by
              simp only [seiTrigger, hsc, h6, hpi]
              rfl
            rw [htrig] at htr
            cases htr
          | none =>
            rw [hk]
            exact hrec
        · rw [if_neg h6, hk]
          exact hrec
      · rw [if_neg hsc]
        exact ih (i+1) (by omega) (by omega)
          (fun j hj1 hj2 => hno j (by omega) hj2)

/-! ## Exhaustion: no valid unit anywhere means extraction fails -/

theorem extract_exhaust {data : List Nat}
    (hno : ∀ j, seiTrigger data j = false) :
    ∀ fuel i, extractAux fuel data i = none := by
  intro fuel
  induction fuel with
  | zero => intro i; rfl
  | succ f ih =>
    intro i
    simp only [extractAux]
    split
    case isFalse => rfl
    case isTrue hguard =>
      by_cases hsc : isStartCode data i = true
      · rw [if_pos hsc]
        by_cases h6 : data.getD (i+4) 0 % 32 = 6
        · rw [if_pos h6]
          cases hpi : parseSeiAndGetLength data i with
          | some p =>
            exfalso
            have htr : seiTrigger data i = true := by
              simp only [seiTrigger, hsc, h6, hpi]
              rfl
            rw [hno i] at htr
            cases htr
          | none =>
            cases hk : findNextStartCode data (i+4) with
            | none => simp only []
            | some ns =>
              simp only []
              exact ih ns
        · rw [if_neg h6]
          cases hk : findNextStartCode data (i+4) with
          | none => simp only []
          | some ns =>
            simp only []
            exact ih ns
      · rw [if_neg hsc]
        exact ih (i+1)

/-! ## The inserted unit as seen by the extraction scan -/

theorem isStartCode_at_unit (pre rest : List Nat) :
    isStartCode (pre ++ 0 :: 0 :: 0 :: 1 :: rest) pre.length = true := by
  simp only [isStartCode, Bool.and_eq_true, beq_iff_eq]
  refine ⟨⟨⟨?_, ?_⟩, ?_⟩, ?_⟩
  · simpa using getD_append_len pre (0 :: 0 :: 0 :: 1 :: rest) 0 0
  · simpa using getD_append_len pre (0 :: 0 :: 0 :: 1 :: rest) 1 0
  · simpa using getD_append_len pre (0 :: 0 :: 0 :: 1 :: rest) 2 0
  · simpa using getD_append_len pre (0 :: 0 :: 0 :: 1 :: rest) 3 0

theorem extract_embed_general (pre post S : List Nat) (hS : S.length = 64)
    (hclean : ∀ j, j < pre.length →
      seiTrigger (pre ++ createSeiPayload S ++ post) j = false) :
    extractSignatureAndRemoveWatermark (pre ++ createSeiPayload S ++ post)
      = some (S, pre ++ post) := by
  set W := pre ++ createSeiPayload S ++ post with hW
  have hshape : W = pre ++ [0, 0, 0, 1, 6, 5, 81] ++ uuid ++ S
      ++ ([128] ++ post) := by
    rw [hW, createSeiPayload_eq hS]
    simp
  have hcons : W = pre ++ (0 :: 0 :: 0 :: 1 :: 6 :: 5 :: 81 ::
      (uuid ++ (S ++ ([128] ++ post)))) := by
    rw [hW, createSeiPayload_eq hS]
    simp
  have hparse : parseSeiAndGetLength W pre.length = some (S, 89) := by
    rw [hshape]
    exact parse_at_unit pre S ([128] ++ post) hS
  have hsc : isStartCode W pre.length = true := by
    rw [hcons]
    exact isStartCode_at_unit pre _
  have ht : W.getD (pre.length + 4) 0 % 32 = 6 := by
    rw [hcons, getD_append_len pre (0 :: 0 :: 0 :: 1 :: 6 :: 5 :: 81 ::
      (uuid ++ (S ++ ([128] ++ post)))) 4 0]
    rfl
  have hlenW : W.length = pre.length + 89 + post.length := by
    rw [hW]
    simp only [List.length_append, createSeiPayload_length hS]
  have hres := extract_reach hsc ht hparse (W.length + 1) 0 (by omega)
    (Nat.zero_le _) (fun j _ hj => hclean j hj)
  have htake : W.take pre.length = pre := by
    rw [hW, List.append_assoc]
    exact List.take_left _ _
  have hdrop : W.drop (pre.length + 89) = post := by
    rw [hW]
    exact List.drop_left' (by
      simp only [List.length_append, createSeiPayload_length hS])
  show extractAux (W.length + 1) W 0 = some (S, pre ++ post)
  rw [hres, htake, hdrop]

/-! ## Decoding the chunked encoding -/

theorem readChunkedCore_cons_255 (tl : List Nat) (acc : Nat) :
    readChunkedCore (255 :: tl) acc
      = (readChunkedCore tl (acc + 255)).map (fun p => (p.1, p.2 + 1)) := by
  simp [readChunkedCore]

theorem readChunkedCore_replicate : ∀ (k acc r : Nat), r < 255 →
    readChunkedCore (List.replicate k 255 ++ [r]) acc
      = some (acc + 255 * k + r, k + 1) := by
  intro k
  induction k with
  | zero =>
    intro acc r hr
    simp [readChunkedCore, Nat.ne_of_lt hr]
  | succ n ih =>
    intro acc r hr
    rw [List.replicate_succ, List.cons_append, readChunkedCore_cons_255,
      ih (acc + 255) r hr]
    simp only [Option.map_some', Option.some.injEq, Prod.mk.injEq, and_true]
    omega

/-! ## Claim theorems -/

/-- C2: for every non-negative integer `v`, decoding the chunked-length
encoding of `v` (the loop of `_create_sei_payload` lines 180-183 written
back by the reader loop of `_parse_sei_and_get_length` lines 386-394)
yields `v` again and consumes the whole encoding, and the encoding is
exactly `ceil((v+1)/255)` bytes long. -/
theorem chunked_codec_roundtrip_length (v : Nat) :
    readChunked (encodeChunked v) 0 = some (v, (encodeChunked v).length) ∧
    (encodeChunked v).length = (v + 1 + 254) / 255 := by
  have hlen : (encodeChunked v).length = v / 255 + 1 := encodeChunked_length v
  constructor
  · have h := readChunked_loc [] (encodeChunked v)
    simp only [List.nil_append, List.length_nil] at h
    rw [h, hlen, encodeChunked_closed v,
      readChunkedCore_replicate (v / 255) 0 (v % 255)
        (Nat.mod_lt _ (by norm_num))]
    simp only [Option.map_some', Option.some.injEq, Prod.mk.injEq, and_true,
      true_and]
    omega
  · rw [hlen]
    omega

/-- C3: whenever the parser runs at an offset where an encoder-produced
unit (built from a 64-byte signature) begins, it succeeds, the length it
returns equals `4 + 1 + type_bytes + size_bytes + 81 + 1`, that value
equals the exact byte length of the encoded unit, and deleting the span
`[start, start + length)` removes precisely the inserted unit. -/
theorem parse_consumes_exact_unit (pre rest S : List Nat)
    (hS : S.length = 64) :
    parseSeiAndGetLength (pre ++ createSeiPayload S ++ rest) pre.length
      = some (S, 4 + 1 + chunkByteCount 5 + chunkByteCount 81 + 81 + 1) ∧
    4 + 1 + chunkByteCount 5 + chunkByteCount 81 + 81 + 1
      = (createSeiPayload S).length ∧
    (pre ++ createSeiPayload S ++ rest).take pre.length
      ++ (pre ++ createSeiPayload S ++ rest).drop
        (pre.length + (createSeiPayload S).length) = pre ++ rest := by
  have h89 : (4 + 1 + chunkByteCount 5 + chunkByteCount 81 + 81 + 1 : Nat)
      = 89 := rfl
  have hshape : pre ++ createSeiPayload S ++ rest
      = pre ++ [0, 0, 0, 1, 6, 5, 81] ++ uuid ++ S ++ ([128] ++ rest) := by
    rw [createSeiPayload_eq hS]
    simp
  refine ⟨?_, ?_, ?_⟩
  · rw [h89, hshape]
    exact parse_at_unit pre S ([128] ++ rest) hS
  · rw [h89, createSeiPayload_length hS]
  · have ht : (pre ++ createSeiPayload S ++ rest).take pre.length = pre := by
      rw [List.append_assoc]
      exact List.take_left _ _
    have hd : (pre ++ createSeiPayload S ++ rest).drop (pre.length + 89)
        = rest :=
      List.drop_left' (by
        simp only [List.length_append, createSeiPayload_length hS])
    rw [createSeiPayload_length hS, ht, hd]

/-- C3 witness: the parser consumes exactly the 89-byte unit embedded at
offset 2 of a concrete buffer. -/
theorem parse_consumes_exact_unit_witness :
    parseSeiAndGetLength ([7, 7] ++ createSeiPayload sigA ++ [9, 9, 9]) 2
      = some (sigA, 4 + 1 + chunkByteCount 5 + chunkByteCount 81 + 81 + 1) :=
  (parse_consumes_exact_unit [7, 7] [9, 9, 9] sigA rfl).1

/-- C1 (amended): for every buffer `B` and 64-byte signature `S`, if no
byte position of the watermarked buffer strictly before the inserted
unit begins a type-6 NAL unit that parses as a valid watermark payload,
then extraction round-trips exactly:
`_extract_signature_and_remove_watermark(_embed_in_sei_messages(B, S))`
returns `(S, B)`.  The restriction is forced by the counterexample: a
buffer already carrying a valid watermark unit followed by another unit
makes the scan hit the pre-existing unit first. -/
theorem roundtrip_on_clean_buffers (B S : List Nat) (hS : S.length = 64)
    (hclean : ∀ j, j < min (findBestInsertionPoint B) B.length →
      seiTrigger (embedInSeiMessages B S) j = false) :
    extractSignatureAndRemoveWatermark (embedInSeiMessages B S)
      = some (S, B) := by
  have hlen : (B.take (findBestInsertionPoint B)).length
      = min (findBestInsertionPoint B) B.length := List.length_take _ _
  have hres := extract_embed_general (B.take (findBestInsertionPoint B))
    (B.drop (findBestInsertionPoint B)) S hS
    (fun j hj => hclean j (hlen ▸ hj))
  show extractSignatureAndRemoveWatermark
      (B.take (findBestInsertionPoint B) ++ createSeiPayload S
        ++ B.drop (findBestInsertionPoint B)) = some (S, B)
  rw [hres, List.take_append_drop]

/-- C1 counterexample: embedding `sigB` into a buffer that already holds
a valid watermark unit (carrying `sigA`) followed by a further NAL unit
does not round-trip — extraction returns the pre-existing signature and
a buffer that still contains the freshly inserted unit. -/
theorem roundtrip_fails_on_prewatermarked :
    sigB.length = 64 ∧
    extractSignatureAndRemoveWatermark
        (embedInSeiMessages bufPrewatermarked sigB)
      = some (sigA, createSeiPayload sigB ++ [0, 0, 0, 1, 2]) ∧
    extractSignatureAndRemoveWatermark
        (embedInSeiMessages bufPrewatermarked sigB)
      ≠ some (sigB, bufPrewatermarked) := by
  refine ⟨rfl, rfl, ?_⟩
  decide

/-- C1 witness: on the empty buffer the cleanliness hypothesis is vacuous
and the round-trip holds. -/
theorem roundtrip_on_clean_buffers_witness :
    extractSignatureAndRemoveWatermark (embedInSeiMessages [] sigA)
      = some (sigA, []) := by
  apply roundtrip_on_clean_buffers [] sigA rfl
  intro j hj
  simp only [List.length_nil, Nat.min_zero] at hj
  exact absurd hj (Nat.not_lt_zero j)

/-- C4: embedding returns exactly
`B[0:offset] ++ encoded_unit ++ B[offset:]` at the selected insertion
offset, the encoded unit built from a 64-byte signature is exactly 89
bytes, and the watermarked buffer is exactly 89 bytes longer than `B`
(the input buffer itself is never mutated: the embedding is a pure
function of it). -/
theorem embed_splice_length (B S : List Nat) (hS : S.length = 64) :
    (createSeiPayload S).length = 89 ∧
    embedInSeiMessages B S
      = B.take (findBestInsertionPoint B) ++ createSeiPayload S
        ++ B.drop (findBestInsertionPoint B) ∧
    (embedInSeiMessages B S).length = B.length + 89 := by
  refine ⟨createSeiPayload_length hS, rfl, ?_⟩
  show (B.take (findBestInsertionPoint B) ++ createSeiPayload S
    ++ B.drop (findBestInsertionPoint B)).length = B.length + 89
  simp only [List.length_append, createSeiPayload_length hS,
    List.length_take, List.length_drop]
  omega

/-- C4 witness: a concrete splice grows the buffer by exactly 89 bytes. -/
theorem embed_splice_length_witness :
    (embedInSeiMessages bufIdealSlice sigA).length
      = bufIdealSlice.length + 89 :=
  (embed_splice_length bufIdealSlice sigA rfl).2.2

/-- C5 (amended): embedding performs no signature-length validation at
all.  For every buffer and every byte string `S` of any length the
splice succeeds, the unit is built from `S` with payload size
`17 + len(S)`, and the output length is
`len(B) + 25 + len(S) + (17 + len(S)) / 255`; nothing is rejected before
encoding.  (The 64-byte length is enforced only later, at extraction.) -/
theorem embed_no_length_validation (B S : List Nat) :
    embedInSeiMessages B S
      = B.take (findBestInsertionPoint B) ++ createSeiPayload S
        ++ B.drop (findBestInsertionPoint B) ∧
    (embedInSeiMessages B S).length
      = B.length + 25 + S.length + (17 + S.length) / 255 := by
  refine ⟨rfl, ?_⟩
  show (B.take (findBestInsertionPoint B) ++ createSeiPayload S
    ++ B.drop (findBestInsertionPoint B)).length
      = B.length + 25 + S.length + (17 + S.length) / 255
  simp only [List.length_append, createSeiPayload_length_general,
    List.length_take, List.length_drop]
  omega

/-- C5 counterexample: a 32-byte signature is not rejected — embedding
proceeds and produces a watermarked buffer built from it (57 = 25 + 32
extra bytes), contradicting the claimed input-contract rejection. -/
theorem embed_accepts_short_signature :
    sig32.length ≠ 64 ∧
    embedInSeiMessages bufPlain sig32 = createSeiPayload sig32 ++ bufPlain ∧
    (embedInSeiMessages bufPlain sig32).length = bufPlain.length + 57 := by
  refine ⟨by decide, by decide, by decide⟩

/-- C10: the parser never reads or validates the trailing marker byte.
A unit whose final byte is any value `t` (not just `0x80`) parses
successfully, a unit truncated right after the payload (trailing byte
beyond the end of the buffer) still parses, and in that case the
computed 89-byte removal span counts one byte past the end of the
buffer. -/
theorem trailing_byte_never_checked (pre S rest : List Nat) (t : Nat)
    (hS : S.length = 64) :
    parseSeiAndGetLength
        (pre ++ [0, 0, 0, 1, 6, 5, 81] ++ uuid ++ S ++ (t :: rest))
        pre.length = some (S, 89) ∧
    parseSeiAndGetLength (pre ++ [0, 0, 0, 1, 6, 5, 81] ++ uuid ++ S)
        pre.length = some (S, 89) ∧
    pre.length + 89 = (pre ++ [0, 0, 0, 1, 6, 5, 81] ++ uuid ++ S).length
      + 1 := by
  refine ⟨parse_at_unit pre S (t :: rest) hS, ?_, ?_⟩
  · have h := parse_at_unit pre S [] hS
    rwa [List.append_nil] at h
  · simp only [List.length_append, List.length_cons, List.length_nil,
      uuid_length, hS]

/-- C10 witness: a concrete unit whose trailing byte is 0 (not 0x80) is
still accepted with span 89. -/
theorem trailing_byte_never_checked_witness :
    parseSeiAndGetLength
        ([9] ++ [0, 0, 0, 1, 6, 5, 81] ++ uuid ++ sigA ++ (0 :: [])) 1
      = some (sigA, 89) :=
  (trailing_byte_never_checked [9] sigA [] 0 rfl).1

/-- C8: a type-6 unit whose payload fails tag or length validation is
never returned as a match; extraction returns `NotFound` (`none`) if and
only if no position in the entire buffer starts a validating type-6
unit, and when validating positions exist the first one is the unit
extracted and removed. -/
theorem extraction_first_valid_match (data : List Nat) :
    (extractSignatureAndRemoveWatermark data = none ↔
      ∀ q, seiTrigger data q = false) ∧
    (∀ q s l, seiTrigger data q = true →
      parseSeiAndGetLength data q = some (s, l) →
      (∀ j, j < q → seiTrigger data j = false) →
      extractSignatureAndRemoveWatermark data
        = some (s, data.take q ++ data.drop (q + l))) := by
  constructor
  · constructor
    · intro hnone q
      by_contra hq
      rw [Bool.not_eq_false] at hq
      have hex : ∃ n, seiTrigger data n = true := ⟨q, hq⟩
      have hfind := Nat.find_spec hex
      have hmin : ∀ j, j < Nat.find hex → seiTrigger data j = false :=
        fun j hj => (Bool.not_eq_true _) ▸ Nat.find_min hex hj
      set q0 := Nat.find hex with hq0def
      simp only [seiTrigger, Bool.and_eq_true, beq_iff_eq] at hfind
      obtain ⟨⟨hsc0, h60⟩, hsome0⟩ := hfind
      obtain ⟨p0, hp0⟩ := Option.isSome_iff_exists.mp hsome0
      obtain ⟨s0, l0⟩ := p0
      have hres := extract_reach hsc0 h60 hp0 (data.length + 1) 0
        (by omega) (Nat.zero_le _) (fun j _ hj => hmin j hj)
      rw [show extractSignatureAndRemoveWatermark data
          = extractAux (data.length + 1) data 0 from rfl, hres] at hnone
      cases hnone
    · intro hno
      exact extract_exhaust hno (data.length + 1) 0
  · intro q s l htr hp hmin
    simp only [seiTrigger, Bool.and_eq_true, beq_iff_eq] at htr
    obtain ⟨⟨hsc, h6⟩, _⟩ := htr
    exact extract_reach hsc h6 hp (data.length + 1) 0 (by omega)
      (Nat.zero_le _) (fun j _ hj => hmin j hj)

/-- C8 witness: a foreign type-6 unit (wrong tag) at offset 0 is skipped
and the valid unit at offset 11 is the one extracted and removed. -/
theorem extraction_first_valid_match_witness :
    seiTrigger bufForeignThenValid 0 = false ∧
    seiTrigger bufForeignThenValid 11 = true ∧
    extractSignatureAndRemoveWatermark bufForeignThenValid
      = some (sigA, bufForeignThenValid.take 11
          ++ bufForeignThenValid.drop (11 + 89)) := by
  refine ⟨by decide, by decide, ?_⟩
  exact (extraction_first_valid_match bufForeignThenValid).2 11 sigA 89
    (by decide) (by decide) (by decide)

/-- C9 counterexample: a watermarked buffer that is exactly one
watermark unit restores to the empty buffer.  Extraction succeeds, and
a constant-true verifier would accept the restored video, yet the
routine returns `False`: the wrapper's truthiness check
`if signature and restored_data:` (line 291) rejects the empty restored
buffer before the verifier is ever consulted, so the returned boolean
is not always the verification result when extraction succeeds. -/
theorem self_verification_empty_restored :
    extractSignatureAndRemoveWatermark (createSeiPayload sigA)
      = some (sigA, []) ∧
    (fun (_ _ : List Nat) => true) ([] : List Nat) sigA = true ∧
    (verifyWatermarkedVideoSelfContained (fun _ _ => true)
      (createSeiPayload sigA)).1 = false := by
  refine ⟨rfl, rfl, rfl⟩

/-- C9 (amended): the boolean returned by the self-contained check
equals the external verification of the extracted signature against the
restored buffer whenever extraction succeeds with a non-empty signature
and a non-empty restored buffer; it is `False` when extraction fails or
when either of them is empty (the wrapper's Python truthiness check at
line 291).  The logged "expected original size" arithmetic never
influences the returned boolean.  On a cleanly watermarked non-empty
buffer the routine verifies exactly the original buffer against the
embedded signature. -/
theorem self_verification_result (verify : List Nat → List Nat → Bool)
    (data B S : List Nat) (hS : S.length = 64) (hB : B ≠ [])
    (hclean : ∀ j, j < min (findBestInsertionPoint B) B.length →
      seiTrigger (embedInSeiMessages B S) j = false) :
    (verifyWatermarkedVideoSelfContained verify data).1
      = (match extractSignatureAndRestoreVideo data with
         | none => false
         | some (sig, restored) => verify restored sig) ∧
    (∀ sig restored,
      extractSignatureAndRemoveWatermark data = some (sig, restored) →
      sig.length ≠ 0 → restored.length ≠ 0 →
      (verifyWatermarkedVideoSelfContained verify data).1
        = verify restored sig) ∧
    (verifyWatermarkedVideoSelfContained verify
        (embedInSeiMessages B S)).1 = verify B S := by
  refine ⟨?_, ?_, ?_⟩
  · unfold verifyWatermarkedVideoSelfContained
    cases extractSignatureAndRestoreVideo data with
    | none => rfl
    | some p =>
      obtain ⟨sig, restored⟩ := p
      rfl
  · intro sig restored hext hsig hres
    unfold verifyWatermarkedVideoSelfContained extractSignatureAndRestoreVideo
    rw [hext]
    simp only []
    rw [if_pos ⟨hsig, hres⟩]
  · have hlen : (B.take (findBestInsertionPoint B)).length
        = min (findBestInsertionPoint B) B.length := List.length_take _ _
    have hresB := extract_embed_general (B.take (findBestInsertionPoint B))
      (B.drop (findBestInsertionPoint B)) S hS
      (fun j hj => hclean j (hlen ▸ hj))
    have hext : extractSignatureAndRemoveWatermark (embedInSeiMessages B S)
        = some (S, B) := by
      show extractSignatureAndRemoveWatermark
        (B.take (findBestInsertionPoint B) ++ createSeiPayload S
          ++ B.drop (findBestInsertionPoint B)) = some (S, B)
      rw [hresB, List.take_append_drop]
    unfold verifyWatermarkedVideoSelfContained extractSignatureAndRestoreVideo
    rw [hext]
    simp only []
    rw [if_pos ⟨by omega, fun h => hB (List.length_eq_zero.mp h)⟩]

/-- C9 witness: on a cleanly watermarked non-empty buffer, with a
constant-true verifier, the routine returns exactly that verifier's
answer on the restored buffer. -/
theorem self_verification_result_witness :
    (verifyWatermarkedVideoSelfContained (fun _ _ => true)
      (embedInSeiMessages [0] sigA)).1 = true := by
  have h := self_verification_result (fun _ _ => true) [] [0] sigA rfl
    (by decide) (by decide)
  exact h.2.2

/-! ## Reaching the first qualifying coded slice in the selector scan -/

theorem findBest_reach {data : List Nat} {q : Nat}
    (hq : isStartCode data q = true) (ht : data.getD (q+4) 0 % 32 = 1)
    (hql : q < data.length - 8) :
    ∀ fuel i sps pps, data.length + 1 ≤ fuel + i → i ≤ q →
    (sps = true ∨ ∃ a, i ≤ a ∧ a < q ∧ isStartCode data a = true ∧
      data.getD (a+4) 0 % 32 = 7) →
    (pps = true ∨ ∃ b, i ≤ b ∧ b < q ∧ isStartCode data b = true ∧
      data.getD (b+4) 0 % 32 = 8) →
    (∀ j, i ≤ j → j < q → isStartCode data j = true →
      data.getD (j+4) 0 % 32 ≠ 6) →
    (∀ j, i ≤ j → j < q → isStartCode data j = true →
      data.getD (j+4) 0 % 32 = 1 →
      ¬((sps = true ∨ ∃ a, i ≤ a ∧ a < j ∧ isStartCode data a = true ∧
          data.getD (a+4) 0 % 32 = 7) ∧
        (pps = true ∨ ∃ b, i ≤ b ∧ b < j ∧ isStartCode data b = true ∧
          data.getD (b+4) 0 % 32 = 8))) →
    findBestAux fuel data i sps pps = q := by
  intro fuel
  induction fuel with
  | zero => intro i sps pps hf hiq _ _ _ _; omega
  | succ f ih =>
    intro i sps pps hf hiq h7 h8 h6 hfirst
    have hguard : i < data.length - 8 := by omega
    simp only [findBestAux]
    rw [if_pos hguard]
    rcases Nat.eq_or_lt_of_le hiq with rfl | hlt
    · have hsps : sps = true := by
        rcases h7 with h | ⟨a, ha1, ha2, _, _⟩
        · exact h
        · omega
      have hpps : pps = true := by
        rcases h8 with h | ⟨b, hb1, hb2, _, _⟩
        · exact h
        · omega
      rw [if_pos hq, if_pos ⟨ht, hsps, hpps⟩]
    · by_cases hsc : isStartCode data i = true
      · rw [if_pos hsc]
        have hq4 : q + 4 < data.length := by omega
        have hik : i + 4 ≤ q := startCode_no_overlap hsc hq hlt
        obtain ⟨k, hk, hkq⟩ := findNextStartCode_reach hq hik hq4
        have hki : i + 1 ≤ k := by
          have := (findNextStartCode_some_bounds hk).1
          omega
        have hnosc : ∀ a, i < a → a < k → isStartCode data a = false := by
          intro a ha1 ha2
          by_cases haa : isStartCode data a = true
          · exact findNextStartCode_min hk a
              (startCode_no_overlap hsc haa ha1) ha2
          · exact Bool.eq_false_iff.mpr haa
        have hnotslice :
            ¬(data.getD (i+4) 0 % 32 = 1 ∧ sps = true ∧ pps = true) := by
          rintro ⟨ht1, hs, hp⟩
          exact hfirst i (Nat.le_refl i) hlt hsc ht1 ⟨Or.inl hs, Or.inl hp⟩
        rw [if_neg hnotslice]
        have ht6 : data.getD (i+4) 0 % 32 ≠ 6 := h6 i (Nat.le_refl i) hlt hsc
        rw [if_neg (fun hcon => ht6 hcon.1), hk]
        apply ih k _ _ (by omega) hkq
        · rcases h7 with hs | ⟨a, ha1, ha2, ha3, ha4⟩
          · left
            rw [hs]
            rfl
          · rcases Nat.eq_or_lt_of_le ha1 with rfl | halt
            · left
              rw [ha4]
              simp
            · right
              refine ⟨a, ?_, ha2, ha3, ha4⟩
              by_contra hak
              push_neg at hak
              have hcontra := hnosc a halt hak
              rw [ha3] at hcontra
              cases hcontra
        · rcases h8 with hs | ⟨b, hb1, hb2, hb3, hb4⟩
          · left
            rw [hs]
            rfl
          · rcases Nat.eq_or_lt_of_le hb1 with rfl | hblt
            · left
              rw [hb4]
              simp
            · right
              refine ⟨b, ?_, hb2, hb3, hb4⟩
              by_contra hbk
              push_neg at hbk
              have hcontra := hnosc b hblt hbk
              rw [hb3] at hcontra
              cases hcontra
        · intro j hj1 hj2 hj3
          exact h6 j (by omega) hj2 hj3
        · intro j hj1 hj2 hj3 hj4 hcon
          apply hfirst j (by omega) hj2 hj3 hj4
          constructor
          · rcases hcon.1 with hb | ⟨a, ha1, ha2, ha3, ha4⟩
            · rw [Bool.or_eq_true] at hb
              rcases hb with h | h
              · exact Or.inl h
              · exact Or.inr ⟨i, Nat.le_refl i, by omega, hsc,
                  by simpa using h⟩
            · exact Or.inr ⟨a, by omega, ha2, ha3, ha4⟩
          · rcases hcon.2 with hb | ⟨b, hb1, hb2, hb3, hb4⟩
            · rw [Bool.or_eq_true] at hb
              rcases hb with h | h
              · exact Or.inl h
              · exact Or.inr ⟨i, Nat.le_refl i, by omega, hsc,
                  by simpa using h⟩
            · exact Or.inr ⟨b, by omega, hb2, hb3, hb4⟩
      · rw [if_neg hsc]
        apply ih (i+1) sps pps (by omega) (by omega)
        · rcases h7 with hs | ⟨a, ha1, ha2, ha3, ha4⟩
          · exact Or.inl hs
          · have hne : a ≠ i := fun e => hsc (e ▸ ha3)
            exact Or.inr ⟨a, by omega, ha2, ha3, ha4⟩
        · rcases h8 with hs | ⟨b, hb1, hb2, hb3, hb4⟩
          · exact Or.inl hs
          · have hne : b ≠ i := fun e => hsc (e ▸ hb3)
            exact Or.inr ⟨b, by omega, hb2, hb3, hb4⟩
        · intro j hj1 hj2 hj3
          exact h6 j (by omega) hj2 hj3
        · intro j hj1 hj2 hj3 hj4 hcon
          apply hfirst j (by omega) hj2 hj3 hj4
          constructor
          · rcases hcon.1 with hb | ⟨a, ha1, ha2, ha3, ha4⟩
            · exact Or.inl hb
            · exact Or.inr ⟨a, by omega, ha2, ha3, ha4⟩
          · rcases hcon.2 with hb | ⟨b, hb1, hb2, hb3, hb4⟩
            · exact Or.inl hb
            · exact Or.inr ⟨b, by omega, hb2, hb3, hb4⟩

/-! ## The selector scan when no rule ever fires -/

theorem findBest_exhaust {data : List Nat}
    (hno : ∀ j, j < data.length - 8 → isStartCode data j = true →
      data.getD (j+4) 0 % 32 ≠ 1 ∧ data.getD (j+4) 0 % 32 ≠ 6) :
    ∀ fuel i sps pps, data.length + 1 ≤ fuel + i →
    (sps = true ∨ ∃ a, i ≤ a ∧ a < data.length - 8 ∧
      isStartCode data a = true ∧ data.getD (a+4) 0 % 32 = 7) →
    (pps = true ∨ ∃ b, i ≤ b ∧ b < data.length - 8 ∧
      isStartCode data b = true ∧ data.getD (b+4) 0 % 32 = 8) →
    findBestAux fuel data i sps pps = findPositionAfterSpsPps data := by
  intro fuel
  induction fuel with
  | zero =>
    intro i sps pps hf h7 h8
    have hsps : sps = true := by
      rcases h7 with h | ⟨a, ha1, ha2, _, _⟩
      · exact h
      · omega
    have hpps : pps = true := by
      rcases h8 with h | ⟨b, hb1, hb2, _, _⟩
      · exact h
      · omega
    simp only [findBestAux]
    rw [hsps, hpps]
    rfl
  | succ f ih =>
    intro i sps pps hf h7 h8
    by_cases hguard : i < data.length - 8
    case neg =>
      have hsps : sps = true := by
        rcases h7 with h | ⟨a, ha1, ha2, _, _⟩
        · exact h
        · omega
      have hpps : pps = true := by
        rcases h8 with h | ⟨b, hb1, hb2, _, _⟩
        · exact h
        · omega
      simp only [findBestAux]
      rw [if_neg hguard, hsps, hpps]
      rfl
    case pos =>
      simp only [findBestAux]
      rw [if_pos hguard]
      by_cases hsc : isStartCode data i = true
      · rw [if_pos hsc]
        obtain ⟨hn1, hn6⟩ := hno i hguard hsc
        rw [if_neg (fun hcon => hn1 hcon.1), if_neg (fun hcon => hn6 hcon.1)]
        cases hk : findNextStartCode data (i+4) with
        | some k =>
          have hki : i + 1 ≤ k := by
            have := (findNextStartCode_some_bounds hk).1
            omega
          have hnosc : ∀ a, i < a → a < k → isStartCode data a = false := by
            intro a ha1 ha2
            by_cases haa : isStartCode data a = true
            · exact findNextStartCode_min hk a
                (startCode_no_overlap hsc haa ha1) ha2
            · exact Bool.eq_false_iff.mpr haa
          apply ih k _ _ (by omega)
          · rcases h7 with hs | ⟨a, ha1, ha2, ha3, ha4⟩
            · left
              rw [hs]
              rfl
            · rcases Nat.eq_or_lt_of_le ha1 with rfl | halt
              · left
                rw [ha4]
                simp
              · right
                refine ⟨a, ?_, ha2, ha3, ha4⟩
                by_contra hak
                push_neg at hak
                have hcontra := hnosc a halt hak
                rw [ha3] at hcontra
                cases hcontra
          · rcases h8 with hs | ⟨b, hb1, hb2, hb3, hb4⟩
            · left
              rw [hs]
              rfl
            · rcases Nat.eq_or_lt_of_le hb1 with rfl | hblt
              · left
                rw [hb4]
                simp
              · right
                refine ⟨b, ?_, hb2, hb3, hb4⟩
                by_contra hbk
                push_neg at hbk
                have hcontra := hnosc b hblt hbk
                rw [hb3] at hcontra
                cases hcontra
        | none =>
          have hs2 : (sps || data.getD (i+4) 0 % 32 == 7) = true := by
            rcases h7 with hs | ⟨a, ha1, ha2, ha3, ha4⟩
            · rw [hs]
              rfl
            · rcases Nat.eq_or_lt_of_le ha1 with rfl | halt
              · rw [ha4]
                simp
              · exfalso
                have h4a : i + 4 ≤ a := startCode_no_overlap hsc ha3 halt
                obtain ⟨jj, hjj, _⟩ :=
                  findNextStartCode_reach ha3 h4a (by omega)
                rw [hk] at hjj
                cases hjj
          have hp2 : (pps || data.getD (i+4) 0 % 32 == 8) = true := by
            rcases h8 with hs | ⟨b, hb1, hb2, hb3, hb4⟩
            · rw [hs]
              rfl
            · rcases Nat.eq_or_lt_of_le hb1 with rfl | hblt
              · rw [hb4]
                simp
              · exfalso
                have h4b : i + 4 ≤ b := startCode_no_overlap hsc hb3 hblt
                obtain ⟨jj, hjj, _⟩ :=
                  findNextStartCode_reach hb3 h4b (by omega)
                rw [hk] at hjj
                cases hjj
          rw [hs2, hp2]
          rfl
      · rw [if_neg hsc]
        apply ih (i+1) sps pps (by omega)
        · rcases h7 with hs | ⟨a, ha1, ha2, ha3, ha4⟩
          · exact Or.inl hs
          · have hne : a ≠ i := fun e => hsc (e ▸ ha3)
            exact Or.inr ⟨a, by omega, ha2, ha3, ha4⟩
        · rcases h8 with hs | ⟨b, hb1, hb2, hb3, hb4⟩
          · exact Or.inl hs
          · have hne : b ≠ i := fun e => hsc (e ▸ hb3)
            exact Or.inr ⟨b, by omega, hb2, hb3, hb4⟩

/-! ## Reaching the first parameter-set run followed by another unit -/

theorem findPos_reach {data : List Nat} {q r : Nat}
    (hq : isStartCode data q = true)
    (hqt : data.getD (q+4) 0 % 32 = 7 ∨ data.getD (q+4) 0 % 32 = 8)
    (hql : q < data.length - 8)
    (hr : findNextStartCode data (q+4) = some r)
    (hr7 : data.getD (r+4) 0 % 32 ≠ 7) (hr8 : data.getD (r+4) 0 % 32 ≠ 8)
    (hbefore : ∀ j, j < q → isStartCode data j = true →
      (data.getD (j+4) 0 % 32 = 7 ∨ data.getD (j+4) 0 % 32 = 8) →
      ∀ s, findNextStartCode data (j+4) = some s →
        (data.getD (s+4) 0 % 32 = 7 ∨ data.getD (s+4) 0 % 32 = 8)) :
    ∀ fuel i last, data.length + 1 ≤ fuel + i → i ≤ q →
    findPosAux fuel data i last = r := by
  intro fuel
  induction fuel with
  | zero => intro i last hf hiq; omega
  | succ f ih =>
    intro i last hf hiq
    have hguard : i < data.length - 8 := by omega
    simp only [findPosAux]
    rw [if_pos hguard]
    rcases Nat.eq_or_lt_of_le hiq with rfl | hlt
    · rw [if_pos hq, if_pos hqt, hr]
      simp only []
      rw [if_pos ⟨hr7, hr8⟩]
    · by_cases hsc : isStartCode data i = true
      · rw [if_pos hsc]
        have h4 : i + 4 ≤ q := startCode_no_overlap hsc hq hlt
        by_cases h78 : data.getD (i+4) 0 % 32 = 7 ∨
            data.getD (i+4) 0 % 32 = 8
        · rw [if_pos h78]
          obtain ⟨s, hs, hsq⟩ := findNextStartCode_reach hq h4 (by omega)
          rw [hs]
          have hs78 := hbefore i hlt hsc h78 s hs
          simp only []
          rw [if_neg (fun hcon => by
            rcases hs78 with h | h
            · exact hcon.1 h
            · exact hcon.2 h)]
          exact ih (i+4) i (by omega) (by omega)
        · rw [if_neg h78]
          exact ih (i+4) last (by omega) (by omega)
      · rw [if_neg hsc]
        exact ih (i+1) last (by omega) (by omega)

/-- C6 (amended): the selector's rules compete in scan order, not by
rank.  For every buffer with a coded-slice unit (type 1) at offset `q`
preceded by both parameter-set types (7 and 8), where `q` is the first
type-1 unit preceded by both and no type-6 unit occurs anywhere before
`q`, `_find_best_insertion_point` returns `q`.  The no-type-6
restriction is forced by the counterexample: a type-6 unit before the
slice fires the existing-metadata rule first (and any type-6 before `q`
necessarily fires, because `q` itself provides the following start
code). -/
theorem slice_insertion_point_scan_order (data : List Nat) (q : Nat)
    (hq : isStartCode data q = true) (ht : data.getD (q+4) 0 % 32 = 1)
    (hql : q < data.length - 8)
    (h7 : ∃ a, a < q ∧ isStartCode data a = true ∧
      data.getD (a+4) 0 % 32 = 7)
    (h8 : ∃ b, b < q ∧ isStartCode data b = true ∧
      data.getD (b+4) 0 % 32 = 8)
    (h6 : ∀ j, j < q → isStartCode data j = true →
      data.getD (j+4) 0 % 32 ≠ 6)
    (hfirst : ∀ j, j < q → isStartCode data j = true →
      data.getD (j+4) 0 % 32 = 1 →
      ¬((∃ a, a < j ∧ isStartCode data a = true ∧
          data.getD (a+4) 0 % 32 = 7) ∧
        (∃ b, b < j ∧ isStartCode data b = true ∧
          data.getD (b+4) 0 % 32 = 8))) :
    findBestInsertionPoint data = q := by
  show findBestAux (data.length + 1) data 0 false false = q
  apply findBest_reach hq ht hql (data.length + 1) 0 false false (by omega)
    (Nat.zero_le _)
  · obtain ⟨a, h1, h2, h3⟩ := h7
    exact Or.inr ⟨a, Nat.zero_le _, h1, h2, h3⟩
  · obtain ⟨b, h1, h2, h3⟩ := h8
    exact Or.inr ⟨b, Nat.zero_le _, h1, h2, h3⟩
  · intro j _ hj2 hj3
    exact h6 j hj2 hj3
  · intro j _ hj2 hj3 hj4 hcon
    apply hfirst j hj2 hj3 hj4
    constructor
    · rcases hcon.1 with hfalse | ⟨a, _, ha2, ha3, ha4⟩
      · cases hfalse
      · exact ⟨a, ha2, ha3, ha4⟩
    · rcases hcon.2 with hfalse | ⟨b, _, hb2, hb3, hb4⟩
      · cases hfalse
      · exact ⟨b, hb2, hb3, hb4⟩

/-- C6 counterexample: in a buffer holding SPS (type 7), PPS (type 8),
an existing metadata unit (type 6), a type-2 unit and then the first
qualifying coded slice (type 1) at offset 20, the selector returns 15
(the point after the existing metadata unit) and not the slice offset
20 — the existing-metadata rule preempts the slice rule in scan order,
so the slice rule is not ranked above it. -/
theorem metadata_rule_preempts_slice :
    isStartCode bufSeiBeforeSlice 0 = true ∧
    bufSeiBeforeSlice.getD 4 0 % 32 = 7 ∧
    isStartCode bufSeiBeforeSlice 5 = true ∧
    bufSeiBeforeSlice.getD 9 0 % 32 = 8 ∧
    isStartCode bufSeiBeforeSlice 20 = true ∧
    bufSeiBeforeSlice.getD 24 0 % 32 = 1 ∧
    findBestInsertionPoint bufSeiBeforeSlice = 15 ∧
    (15 : Nat) ≠ 20 := by
  decide

/-- C6 witness: with SPS at 0, PPS at 5 and the first qualifying slice
at 10 (and no earlier type-6 unit), the selector returns 10. -/
theorem slice_insertion_point_scan_order_witness :
    findBestInsertionPoint bufIdealSlice = 10 :=
  slice_insertion_point_scan_order bufIdealSlice 10 (by decide) (by decide)
    (by decide) ⟨0, by decide⟩ ⟨5, by decide⟩ (by decide)
    (by
      intro j hj hsc ht1
      interval_cases j <;>
        first
          | exact absurd hsc (by decide)
          | exact absurd ht1 (by decide))

/-- C7 (amended): when both parameter-set types were seen but no
coded-slice (type 1) or metadata (type 6) unit occurs anywhere in the
scanned range, and some parameter-set unit at offset `q` is directly
followed by a non-parameter-set unit at offset `r` (all parameter-set
units before `q` being followed by parameter-set units), the selected
insertion offset is `r` — the point immediately after the first
contiguous parameter-set run — and it lies strictly inside the buffer.
The counterexample shows the other branch: when no parameter-set unit
is followed by a non-parameter-set unit the code returns the start of
the last parameter-set unit plus 100, which can exceed the buffer
length. -/
theorem insertion_after_parameter_run (data : List Nat) (q r : Nat)
    (hno : ∀ j, j < data.length - 8 → isStartCode data j = true →
      data.getD (j+4) 0 % 32 ≠ 1 ∧ data.getD (j+4) 0 % 32 ≠ 6)
    (h7 : ∃ a, a < data.length - 8 ∧ isStartCode data a = true ∧
      data.getD (a+4) 0 % 32 = 7)
    (h8 : ∃ b, b < data.length - 8 ∧ isStartCode data b = true ∧
      data.getD (b+4) 0 % 32 = 8)
    (hq : isStartCode data q = true)
    (hqt : data.getD (q+4) 0 % 32 = 7 ∨ data.getD (q+4) 0 % 32 = 8)
    (hql : q < data.length - 8)
    (hr : findNextStartCode data (q+4) = some r)
    (hr7 : data.getD (r+4) 0 % 32 ≠ 7) (hr8 : data.getD (r+4) 0 % 32 ≠ 8)
    (hbefore : ∀ j, j < q → isStartCode data j = true →
      (data.getD (j+4) 0 % 32 = 7 ∨ data.getD (j+4) 0 % 32 = 8) →
      ∀ s, findNextStartCode data (j+4) = some s →
        (data.getD (s+4) 0 % 32 = 7 ∨ data.getD (s+4) 0 % 32 = 8)) :
    findBestInsertionPoint data = r ∧ r + 4 < data.length := by
  have h1 : findBestInsertionPoint data = findPositionAfterSpsPps data := by
    show findBestAux (data.length + 1) data 0 false false
      = findPositionAfterSpsPps data
    apply findBest_exhaust hno (data.length + 1) 0 false false (by omega)
    · obtain ⟨a, ha1, ha2, ha3⟩ := h7
      exact Or.inr ⟨a, Nat.zero_le _, ha1, ha2, ha3⟩
    · obtain ⟨b, hb1, hb2, hb3⟩ := h8
      exact Or.inr ⟨b, Nat.zero_le _, hb1, hb2, hb3⟩
  have h2 : findPositionAfterSpsPps data = r :=
    findPos_reach hq hqt hql hr hr7 hr8 hbefore (data.length + 1) 0 0
      (by omega) (Nat.zero_le _)
  exact ⟨h1.trans h2, (findNextStartCode_some_bounds hr).2.1⟩

/-- C7 counterexample: a buffer whose parameter-set run is not followed
by any further start code drives the selector into the
`last_sps_pps_pos + 100` fallback: it returns 105 on an 18-byte buffer,
which is not a valid offset within the buffer (and not the point
immediately after the parameter-set run). -/
theorem fallback_offset_exceeds_buffer :
    isStartCode bufSpsPpsOnly 0 = true ∧
    bufSpsPpsOnly.getD 4 0 % 32 = 7 ∧
    isStartCode bufSpsPpsOnly 5 = true ∧
    bufSpsPpsOnly.getD 9 0 % 32 = 8 ∧
    findBestInsertionPoint bufSpsPpsOnly = 105 ∧
    bufSpsPpsOnly.length = 18 ∧
    ¬ findBestInsertionPoint bufSpsPpsOnly ≤ bufSpsPpsOnly.length := by
  decide

/-- C7 witness: SPS at 0, PPS at 5, then a type-2 unit at 10: the
selector inserts at offset 10, inside the buffer. -/
theorem insertion_after_parameter_run_witness :
    findBestInsertionPoint bufAfterParams = 10 ∧
    10 + 4 < bufAfterParams.length := by
  have h := insertion_after_parameter_run bufAfterParams 5 10
    (by decide) ⟨0, by decide⟩ ⟨5, by decide⟩ (by decide) (by decide)
    (by decide) (by decide) (by decide) (by decide)
    (by
      intro j hj hsc h78 s hs
      interval_cases j
      · have he : findNextStartCode bufAfterParams 4 = some 5 := by decide
        rw [he] at hs
        injection hs with he2
        subst he2
        decide
      · exact absurd hsc (by decide)
      · exact absurd hsc (by decide)
      · exact absurd hsc (by decide)
      · exact absurd hsc (by decide))
  exact h
